import Mathlib

/-!
Verification of the label-input interpretation layer and the
set-merge/validation pipeline of `lgr/tools/utils.py`.

Python strings are modelled as `List Char`; Python exceptions as an
explicit error type threaded through `Except`.  The external
collaborators (XML parsing of a ruleset, the merge-set union algorithm,
the eligibility checker `test_label_eligible`, the collision checker
`is_collision`, and the IDNA decoder of the Unicode database) are out of
scope for the source file and are modelled as function-valued parameters.
-/

set_option autoImplicit false

namespace Lgr

/-- The whitespace set of Python's `unicode.strip()`/`split()`
(CPython 2.7, the source's dialect: characters of category Zs or with
bidirectional class WS, B or S): U+0009–U+000D, U+001C–U+001F, space,
U+0085, U+00A0, U+1680, U+180E, U+2000–U+200A, U+2028, U+2029, U+202F,
U+205F, U+3000.  (Modern Python 3 differs only at U+180E.) -/
def isPySpace (c : Char) : Bool :=
  decide ((9 ≤ c.toNat ∧ c.toNat ≤ 13) ∨ (28 ≤ c.toNat ∧ c.toNat ≤ 31) ∨
    c.toNat = 32 ∨ c.toNat = 0x85 ∨ c.toNat = 0xA0 ∨ c.toNat = 0x1680 ∨
    c.toNat = 0x180E ∨ (0x2000 ≤ c.toNat ∧ c.toNat ≤ 0x200A) ∨
    c.toNat = 0x2028 ∨ c.toNat = 0x2029 ∨ c.toNat = 0x202F ∨
    c.toNat = 0x205F ∨ c.toNat = 0x3000)

/-- Python `s.strip()`. -/
def pyStrip (s : List Char) : List Char :=
  ((s.dropWhile isPySpace).reverse.dropWhile isPySpace).reverse

/-- Python `s.upper()` (ASCII case mapping; the characters the source
compares after upper-casing are all ASCII). -/
def pyUpper (s : List Char) : List Char := s.map Char.toUpper

/-- Python `s.lower()` (ASCII case mapping). -/
def pyLower (s : List Char) : List Char := s.map Char.toLower

/-- Python `s.startswith(pat)`: `beginsWith pat s`. -/
def beginsWith : List Char → List Char → Bool
  | [], _ => true
  | _ :: _, [] => false
  | p :: ps, c :: cs => p = c && beginsWith ps cs

/-- Python `pat in s` (substring containment): `containsSub pat s`. -/
def containsSub (pat : List Char) : List Char → Bool
  | [] => pat.isEmpty
  | c :: cs => beginsWith pat (c :: cs) || containsSub pat cs

/-- Python `s.split()`: split on runs of whitespace, no empty tokens.
`acc` holds the characters of the current token, reversed. -/
def pySplitAux : List Char → List Char → List (List Char)
  | [], acc => if acc.isEmpty then [] else [acc.reverse]
  | c :: cs, acc =>
    if isPySpace c then
      if acc.isEmpty then pySplitAux cs [] else acc.reverse :: pySplitAux cs []
    else pySplitAux cs (c :: acc)

def pySplit (s : List Char) : List (List Char) := pySplitAux s []

/-- The errors raised by the source (Python exceptions), distinguished by
their kind; `malformed` carries the string handed to `int(_, 16)`,
`disallowedWhitespace` the offending label, `decodeError` the message of
a failing IDNA decode. -/
inductive ParseErr where
  | malformed (tok : List Char)
  | outOfRange
  | disallowedWhitespace (s : List Char)
  | decodeError (msg : List Char)
deriving DecidableEq

/-- The message text of each error, as the source formats it
(`\x27` is the ASCII apostrophe used by Python around the offending
token). -/
def errMsg : ParseErr → List Char
  | .malformed t => ("invalid literal for int() with base 16: \x27").toList ++ t ++ ['\x27']
  | .outOfRange => ("code point value must be in the range [0, U+10FFFF]").toList
  | .disallowedWhitespace s =>
      ("Label \x27").toList ++ s ++ ("\x27 contains spaces that are not PVALID for IDNA2008").toList
  | .decodeError m => m

instance {ε α : Type} [DecidableEq ε] [DecidableEq α] : DecidableEq (Except ε α)
  | .ok a, .ok b =>
    if h : a = b then .isTrue (by rw [h]) else .isFalse (by intro hc; cases hc; exact h rfl)
  | .ok _, .error _ => .isFalse (by intro h; cases h)
  | .error _, .ok _ => .isFalse (by intro h; cases h)
  | .error a, .error b =>
    if h : a = b then .isTrue (by rw [h]) else .isFalse (by intro hc; cases hc; exact h rfl)

/-- Value of one hexadecimal digit character. -/
def hexVal (c : Char) : Option Nat :=
  if '0' ≤ c ∧ c ≤ '9' then some (c.toNat - 48)
  else if 'a' ≤ c ∧ c ≤ 'f' then some (c.toNat - 87)
  else if 'A' ≤ c ∧ c ≤ 'F' then some (c.toNat - 55)
  else none

def parseHexAux : List Char → Nat → Option Nat
  | [], acc => some acc
  | c :: cs, acc =>
    match hexVal c with
    | none => none
    | some d => parseHexAux cs (acc * 16 + d)

/-- Parse a non-empty all-hex digit string (the part of `int(_, 16)`
after sign and `0x`-prefix handling). -/
def parseHexDigits : List Char → Option Nat
  | [] => none
  | c :: cs => parseHexAux (c :: cs) 0

/-- Python `int(s, 16)`: strip surrounding whitespace, optional sign,
optional `0x`/`0X` prefix, then a non-empty string of hex digits.
On failure the error carries `s`, as Python quotes the argument in the
`ValueError` message. -/
def pyInt16 (s : List Char) : Except ParseErr Int :=
  let t := pyStrip s
  let st : Int × List Char :=
    match t with
    | '+' :: r => (1, r)
    | '-' :: r => (-1, r)
    | _ => (1, t)
  let body : List Char :=
    match st.2 with
    | '0' :: 'x' :: r => r
    | '0' :: 'X' :: r => r
    | _ => st.2
  match parseHexDigits body with
  | some v => .ok (st.1 * (v : Int))
  | none => .error (.malformed s)

/-- The lowercase hex digit character for `d < 16` (as Python's `hex`
prints digits). -/
def hexDigitChar (d : Nat) : Char :=
  if d < 10 then Char.ofNat (48 + d) else Char.ofNat (87 + d)

/-- Big-endian hex digits of `n`, prepended to `acc`; `fuel ≥ n + 1`
always suffices. -/
def toHexFuel : Nat → Nat → List Char → List Char
  | 0, _, acc => acc
  | fuel + 1, n, acc =>
    if n < 16 then hexDigitChar n :: acc
    else toHexFuel fuel (n / 16) (hexDigitChar (n % 16) :: acc)

/-- Python `hex(n)` for `n ≥ 0`: `0x` followed by the lowercase hex
digits of `n`. -/
def pyHex (n : Nat) : List Char := '0' :: 'x' :: toHexFuel (n + 1) n []

/-- `c'` is a per-character case variant of `c`: the character itself,
its (ASCII) upper case, or its (ASCII) lower case.  A string `t` with
`List.Forall₂ caseOf s t` is an arbitrary re-casing of `s`. -/
def caseOf (c c' : Char) : Prop :=
  c' = c ∨ c' = Char.toUpper c ∨ c' = Char.toLower c

instance (c c' : Char) : Decidable (caseOf c c') := by
  unfold caseOf
  infer_instance

/-- `parse_single_cp_input` from `lgr/tools/utils.py`: strip, a single
remaining character is its own ordinal, otherwise interpret (minus an
optional case-insensitive `U+` prefix) as hex and bound-check. -/
def parse_single_cp_input (s : List Char) : Except ParseErr Nat :=
  let t := pyStrip s
  match t with
  | [c] => .ok c.toNat
  | _ =>
    let vE : Except ParseErr Int :=
      if pyUpper (t.take 2) = ['U', '+'] then pyInt16 (t.drop 2) else pyInt16 t
    match vE with
    | .error e => .error e
    | .ok v => if v < 0 ∨ v > (0x10FFFF : Int) then .error .outOfRange else .ok v.toNat

/-- `parse_codepoint_input`: split on whitespace and parse each token;
the first failing token aborts the parse. -/
def parse_codepoint_input (s : List Char) : Except ParseErr (List Nat) :=
  (pySplit s).mapM parse_single_cp_input

/-- Python `unichr` for valid Unicode scalar values (the only inputs the
source feeds it that this development reasons about). -/
def unichr (n : Nat) : Char := Char.ofNat n

/-- `parse_label_input` with `as_cp=True`: returns the code-point list.
`idna` models `idna_decoder`. -/
def parse_label_input_cp (s : List Char)
    (idna : List Char → Except ParseErr (List Char)) : Except ParseErr (List Nat) :=
  if beginsWith ("xn--").toList (pyLower s) then
    match idna (pyLower s) with
    | .ok d => .ok (d.map Char.toNat)
    | .error e => .error e
  else if s.contains ' ' || containsSub ("U+").toList (pyUpper s) then
    match parse_codepoint_input s with
    | .ok cps => .ok cps
    | .error e => if s.contains ' ' then .error (.disallowedWhitespace s) else .error e
  else
    .ok (s.map Char.toNat)

/-- `parse_label_input` with `as_cp=False`: returns the label as a
string. -/
def parse_label_input_str (s : List Char)
    (idna : List Char → Except ParseErr (List Char)) : Except ParseErr (List Char) :=
  if beginsWith ("xn--").toList (pyLower s) then
    idna (pyLower s)
  else if s.contains ' ' || containsSub ("U+").toList (pyUpper s) then
    match parse_codepoint_input s with
    | .ok cps => .ok (cps.map unichr)
    | .error e => if s.contains ' ' then .error (.disallowedWhitespace s) else .error e
  else
    .ok s

/-- `logs.strip().split('\n')[-1]`: the last line of a diagnostic log
(Python `split` keeps empty segments, and on the empty string yields one
empty segment). -/
def splitNL : List Char → List (List Char)
  | [] => [[]]
  | c :: cs =>
    if c = '\n' then [] :: splitNL cs
    else
      match splitNL cs with
      | [] => [[c]]
      | t :: ts => (c :: t) :: ts

def lastLine (s : List Char) : List Char := (splitNL (pyStrip s)).getLastD []

/-- One line of `read_labels`'s loop body, after the `yield` of the
parsed label (`some`) or the skip of a comment/blank line (`none`) has
been decided; `processBody` is the part after comment stripping. -/
def processBody (idna : List Char → Except ParseErr (List Char)) (do_raise : Bool)
    (label : List Char) : Except ParseErr (Option (List Char)) :=
  if label = [] then .ok none
  else
    match parse_label_input_str label idna with
    | .ok l => .ok (some l)
    | .error e =>
      if do_raise then .error e
      else .ok (some (label ++ (": ").toList ++ errMsg e))

def processLine (idna : List Char → Except ParseErr (List Char))
    (do_raise keep_commented : Bool) (line : List Char) :
    Except ParseErr (Option (List Char)) :=
  let label := pyStrip line
  if label.contains '#' then
    let pos := label.findIdx (fun c => c == '#')
    if pos = 0 then
      if keep_commented then .ok (some label) else .ok none
    else processBody idna do_raise (pyStrip (label.take pos))
  else processBody idna do_raise label

/-- `read_labels` from `lgr/tools/utils.py`, as the list of labels the
generator yields (an exception from a line, possible only with
`do_raise`, aborts the iteration). -/
def read_labels (idna : List Char → Except ParseErr (List Char))
    (do_raise keep_commented : Bool) : List (List Char) → Except ParseErr (List (List Char))
  | [] => .ok []
  | line :: rest =>
    match processLine idna do_raise keep_commented line with
    | .error e => .error e
    | .ok none => read_labels idna do_raise keep_commented rest
    | .ok (some l) =>
      match read_labels idna do_raise keep_commented rest with
      | .error e => .error e
      | .ok ls => .ok (l :: ls)

/-- The merged common LGR, reduced to the collaborator functions
`read_set_labels` consults: `test_label_eligible` (its eligibility flag
and diagnostic log), `is_collision`, and the Unicode database's
`idna_decode_label`. -/
structure MergedLGR where
  elig : List Nat → Bool × List Char
  collide : Finset (List Char) → Bool
  idnaDecode : List Char → Except ParseErr (List Char)

inductive LGRErr where
  | parseErr (e : ParseErr)
  | invalidLabel (label : List Char) (msg : List Char)
  | collision
deriving DecidableEq

/-- The `logger.error` calls of `read_set_labels`. -/
inductive LogEntry where
  | invalidLabel (label : List Char) (msg : List Char)
  | collisionFound
deriving DecidableEq

/-- The loop of `read_set_labels` over the raw label lines (the source
consumes the `read_labels` generator lazily, so each line is parsed and
then immediately validated), followed in the base case by the one final
collision check. -/
def rslLines (m : MergedLGR) (validate do_raise : Bool) :
    List (List Char) → Finset (List Char) → List LogEntry →
    List LogEntry × Except LGRErr (Finset (List Char))
  | [], acc, log =>
    if validate && m.collide acc then
      if do_raise then (log ++ [.collisionFound], .error .collision)
      else (log ++ [.collisionFound], .ok acc)
    else (log, .ok acc)
  | line :: rest, acc, log =>
    match processLine m.idnaDecode do_raise false line with
    | .error e => (log, .error (.parseErr e))
    | .ok none => rslLines m validate do_raise rest acc log
    | .ok (some l) =>
      if validate then
        let r := m.elig (l.map Char.toNat)
        if r.1 then rslLines m validate do_raise rest (insert l acc) log
        else
          if do_raise then
            (log ++ [.invalidLabel l (lastLine r.2)], .error (.invalidLabel l (lastLine r.2)))
          else rslLines m validate do_raise rest acc (log ++ [.invalidLabel l (lastLine r.2)])
      else rslLines m validate do_raise rest (insert l acc) log

/-- `read_set_labels` from `lgr/tools/utils.py`: the emitted error log
and the resulting label set (or the exception raised). -/
def read_set_labels (m : MergedLGR) (labels : List (List Char))
    (validate_labels do_raise : Bool) :
    List LogEntry × Except LGRErr (Finset (List Char)) :=
  rslLines m validate_labels do_raise labels ∅ []

/-- The loop of `read_set_labels` expressed over the already-parsed
labels (used to relate the line-level loop to `read_labels`' output when
every line parses). -/
def rslLabels (m : MergedLGR) (validate do_raise : Bool) :
    List (List Char) → Finset (List Char) → List LogEntry →
    List LogEntry × Except LGRErr (Finset (List Char))
  | [], acc, log =>
    if validate && m.collide acc then
      if do_raise then (log ++ [.collisionFound], .error .collision)
      else (log ++ [.collisionFound], .ok acc)
    else (log, .ok acc)
  | l :: rest, acc, log =>
    if validate then
      let r := m.elig (l.map Char.toNat)
      if r.1 then rslLabels m validate do_raise rest (insert l acc) log
      else
        if do_raise then
          (log ++ [.invalidLabel l (lastLine r.2)], .error (.invalidLabel l (lastLine r.2)))
        else rslLabels m validate do_raise rest acc (log ++ [.invalidLabel l (lastLine r.2)])
    else rslLabels m validate do_raise rest (insert l acc) log

/-- The `validate_labels = true` loop of `read_set_labels` with the
final collision check removed: the eligibility-filtering phase alone. -/
def rslNoColl (m : MergedLGR) (do_raise : Bool) :
    List (List Char) → Finset (List Char) → List LogEntry →
    List LogEntry × Except LGRErr (Finset (List Char))
  | [], acc, log => (log, .ok acc)
  | line :: rest, acc, log =>
    match processLine m.idnaDecode do_raise false line with
    | .error e => (log, .error (.parseErr e))
    | .ok none => rslNoColl m do_raise rest acc log
    | .ok (some l) =>
      let r := m.elig (l.map Char.toNat)
      if r.1 then rslNoColl m do_raise rest (insert l acc) log
      else
        if do_raise then
          (log ++ [.invalidLabel l (lastLine r.2)], .error (.invalidLabel l (lastLine r.2)))
        else rslNoColl m do_raise rest acc (log ++ [.invalidLabel l (lastLine r.2)])

/-- The collaborators of `merge_lgrs`: `XMLParser(f).parse_document()`,
`XMLParser(f).validate_document(rng)` (diagnostics or `None`), and
`merge_lgr_set`.  Attaching the shared Unicode database to the parser
and to the merged result mutates collaborator objects and is not
observable at this layer, so it is not modelled. -/
structure MergeEnv (α L : Type) where
  parseDoc : α → Option L
  validateDoc : α → Option (List Char)
  mergeSet : List L → List Char → L

/-- The `logger.error` calls of `merge_lgrs`. -/
inductive MergeLog (α : Type) where
  | rngError (file : α) (result : List Char)
  | parseError (file : α)
deriving DecidableEq

/-- The per-source loop of `merge_lgrs`: RNG validation failures are
logged and accepted, a `parse_document` failure aborts with no result. -/
def mergeLoop {α L : Type} (env : MergeEnv α L) (rng : Bool) :
    List α → List L → List (MergeLog α) → List (MergeLog α) × Option (List L)
  | [], acc, log => (log, some acc)
  | f :: rest, acc, log =>
    let log' :=
      if rng then
        match env.validateDoc f with
        | some r => log ++ [.rngError f r]
        | none => log
      else log
    match env.parseDoc f with
    | none => (log' ++ [.parseError f], none)
    | some lgr => mergeLoop env rng rest (acc ++ [lgr]) log'

/-- `merge_lgrs` from `lgr/tools/utils.py`: parse every source, default
the set name, and union the parsed rulesets; `none` models the bare
`return` taken when a source fails to parse. -/
def merge_lgrs {α L : Type} (env : MergeEnv α L) (input_lgrs : List α)
    (name : Option (List Char)) (rng : Bool) :
    List (MergeLog α) × Option (L × List L) :=
  match mergeLoop env rng input_lgrs [] [] with
  | (log, none) => (log, none)
  | (log, some lgr_set) =>
    let nm : List Char :=
      match name with
      | none => ("merged-lgr-set").toList
      | some n => if n = [] then ("merged-lgr-set").toList else n
    (log, some (env.mergeSet lgr_set nm, lgr_set))

/-- The plain-text branch of `parse_label_input`: when the string does
not start (case-insensitively) with `xn--`, has no space and no
case-insensitive `U+`, every character becomes one code point. -/
theorem parse_label_literal (s : List Char) (idna : List Char → Except ParseErr (List Char))
    (h1 : beginsWith ("xn--").toList (pyLower s) = false)
    (h2 : ' ' ∉ s)
    (h3 : containsSub ("U+").toList (pyUpper s) = false) :
    parse_label_input_cp s idna = .ok (s.map Char.toNat) := by
  have h1' : beginsWith ['x', 'n', '-', '-'] (pyLower s) = false := h1
  have h3' : containsSub ['U', '+'] (pyUpper s) = false := h3
  simp [parse_label_input_cp, h1', h2, h3']

example : parse_codepoint_input ("0061 0062").toList = .ok [97, 98] := by decide
example : parse_codepoint_input ("a b").toList = .ok [97, 98] := by decide
example : parse_single_cp_input ("U+10ffff").toList = .ok 0x10FFFF := by decide
example : parse_single_cp_input ("U+110000").toList = .error .outOfRange := by decide
example : parse_single_cp_input ("U+").toList = .error (.malformed []) := by decide
example : parse_single_cp_input (" u+1 ").toList = .ok 1 := by decide
example : parse_label_input_cp ("0061").toList (fun _ => .error (.decodeError [])) =
    .ok [48, 48, 54, 49] := by decide
example : parse_label_input_cp ("U+0061").toList (fun _ => .error (.decodeError [])) =
    .ok [97] := by decide
example : parse_label_input_cp ("a b c").toList (fun _ => .error (.decodeError [])) =
    .ok [97, 98, 99] := by decide
example :
    read_labels (fun _ => .error (.decodeError [])) false false
      [("# comment\n").toList, ("abc\n").toList, ("U+0061 0062\n").toList, ("  \n").toList] =
    .ok [("abc").toList, ['a', 'b']] := by decide
example :
    read_set_labels ⟨fun _ => (true, []), fun _ => false, fun _ => .error (.decodeError [])⟩
      [['a']] true true = ([], .ok {['a']}) := by decide

/-- C1: for every input string with no space, no case-insensitive `U+`
substring, no (case-insensitive) `xn--` prefix and length greater than
one, `parse_label_input` treats each character literally as one code
point; in particular `parse_label_input "0061" = [48, 48, 54, 49]` and
`parse_label_input "U+0061" = [97]`. -/
theorem claim_C1 :
    (∀ (s : List Char) (idna : List Char → Except ParseErr (List Char)),
      ' ' ∉ s →
      containsSub ("U+").toList (pyUpper s) = false →
      beginsWith ("xn--").toList (pyLower s) = false →
      1 < s.length →
      parse_label_input_cp s idna = .ok (s.map Char.toNat)) ∧
    (∀ idna : List Char → Except ParseErr (List Char),
      parse_label_input_cp ("0061").toList idna = .ok [48, 48, 54, 49] ∧
      parse_label_input_cp ("U+0061").toList idna = .ok [97]) := by
  constructor
  · intro s idna h2 h3 h1 _
    exact parse_label_literal s idna h1 h2 h3
  · intro idna
    exact ⟨rfl, rfl⟩

theorem claim_C1_witness :
    parse_label_input_cp ("ab").toList (fun _ => .error (.decodeError [])) = .ok [97, 98] :=
  claim_C1.1 ("ab").toList (fun _ => .error (.decodeError []))
    (by decide) (by decide) (by decide) (by decide)

/-- C10: format detection tests only the ASCII space character: a
multi-character input whose tokens are separated by tab (or any other
non-space whitespace), with no space, no case-insensitive `U+` and no
`xn--` prefix, takes the literal-text path, each character (tabs
included) becoming one code point — although `parse_codepoint_input`
itself splits on any whitespace run (`"a\tb"` yields `[97, 98]` there
but `[97, 9, 98]` from `parse_label_input`). -/
theorem claim_C10 :
    (∀ (s : List Char) (idna : List Char → Except ParseErr (List Char)),
      ' ' ∉ s →
      containsSub ("U+").toList (pyUpper s) = false →
      beginsWith ("xn--").toList (pyLower s) = false →
      1 < s.length →
      (∃ c ∈ s, isPySpace c = true ∧ c ≠ ' ') →
      parse_label_input_cp s idna = .ok (s.map Char.toNat)) ∧
    (∀ idna : List Char → Except ParseErr (List Char),
      parse_label_input_cp ['a', '\t', 'b'] idna = .ok [97, 9, 98]) ∧
    parse_codepoint_input ['a', '\t', 'b'] = .ok [97, 98] := by
  refine ⟨?_, fun _ => rfl, by decide⟩
  intro s idna h2 h3 h1 _ _
  exact parse_label_literal s idna h1 h2 h3

theorem claim_C10_witness :
    parse_label_input_cp ['a', '\t', 'b'] (fun _ => .error (.decodeError [])) =
      .ok [97, 9, 98] :=
  claim_C10.1 ['a', '\t', 'b'] (fun _ => .error (.decodeError []))
    (by decide) (by decide) (by decide) (by decide) ⟨'\t', by decide, by decide, by decide⟩

/-- C7 (amended): for every label string NOT starting case-insensitively
with `xn--`: if it contains a space and fails to parse as a code-point
sequence, `parse_label_input` fails with the disallowed-whitespace
error; if it fails and contains no space (so it took the hex path via a
`U+` substring), the original parse error is re-raised unchanged.  (The
claim as frozen omits the `xn--` restriction and is refuted by
`claim_C7_counterexample`.) -/
theorem claim_C7 :
    ∀ (s : List Char) (idna : List Char → Except ParseErr (List Char)) (e : ParseErr),
      beginsWith ("xn--").toList (pyLower s) = false →
      parse_codepoint_input s = .error e →
      (' ' ∈ s →
        parse_label_input_cp s idna = .error (.disallowedWhitespace s)) ∧
      (' ' ∉ s →
        containsSub ("U+").toList (pyUpper s) = true →
        parse_label_input_cp s idna = .error e) := by
  intro s idna e h1 he
  have h1' : beginsWith ['x', 'n', '-', '-'] (pyLower s) = false := h1
  constructor
  · intro hs
    simp [parse_label_input_cp, h1', hs, he]
  · intro hs hU
    have hU' : containsSub ['U', '+'] (pyUpper s) = true := hU
    simp [parse_label_input_cp, h1', hs, hU', he]

/-- C7 counterexample: `"xn-- a"` contains a space and fails to parse as
a code-point sequence, yet `parse_label_input` (whose IDNA decoder fails
on it, as Python's does) raises the decoder's error, not the
disallowed-whitespace error. -/
theorem claim_C7_counterexample :
    ' ' ∈ ("xn-- a").toList ∧
    parse_codepoint_input ("xn-- a").toList = .error (.malformed ("xn--").toList) ∧
    parse_label_input_cp ("xn-- a").toList (fun _ => .error (.decodeError [])) =
      .error (.decodeError []) ∧
    parse_label_input_cp ("xn-- a").toList (fun _ => .error (.decodeError [])) ≠
      .error (.disallowedWhitespace ("xn-- a").toList) := by decide

theorem claim_C7_witness :
    parse_label_input_cp ("zz a").toList (fun _ => .error (.decodeError [])) =
      .error (.disallowedWhitespace ("zz a").toList) :=
  (claim_C7 ("zz a").toList (fun _ => .error (.decodeError []))
    (.malformed ("zz").toList) (by decide) (by decide)).1 (by decide)

/-- C8: on the lines `["# comment\n", "abc\n", "U+0061 0062\n", "  \n"]`
with `keep_commented = false`, `read_labels` yields exactly the
3-character label `"abc"` and the 2-character label with code points
`[97, 98]`, in order; the full-line comment and the blank line are
skipped. -/
theorem claim_C8 :
    ∀ idna : List Char → Except ParseErr (List Char),
      read_labels idna false false
        [("# comment\n").toList, ("abc\n").toList, ("U+0061 0062\n").toList, ("  \n").toList] =
      .ok [("abc").toList, ['a', 'b']] :=
  fun _ => rfl

theorem claim_C8_witness :
    read_labels (fun _ => .error (.decodeError [])) false false
      [("# comment\n").toList, ("abc\n").toList, ("U+0061 0062\n").toList, ("  \n").toList] =
    .ok [("abc").toList, ['a', 'b']] :=
  claim_C8 (fun _ => .error (.decodeError []))

/-- When every line of the input parses (in particular whenever
`read_labels` succeeds), the line-level loop of `read_set_labels` agrees
with the loop over the parsed labels. -/
theorem rslLines_eq_rslLabels (m : MergedLGR) (validate do_raise : Bool) :
    ∀ (lines lbls : List (List Char)) (acc : Finset (List Char)) (log : List LogEntry),
      read_labels m.idnaDecode do_raise false lines = .ok lbls →
      rslLines m validate do_raise lines acc log = rslLabels m validate do_raise lbls acc log := by
  intro lines
  induction lines with
  | nil =>
    intro lbls acc log h
    simp only [read_labels, Except.ok.injEq] at h
    subst h
    rfl
  | cons line rest ih =>
    intro lbls acc log h
    cases hp : processLine m.idnaDecode do_raise false line with
    | error e => simp [read_labels, hp] at h
    | ok o =>
      cases o with
      | none =>
        simp only [read_labels, hp] at h
        rw [rslLines, hp]
        exact ih lbls acc log h
      | some l =>
        simp only [read_labels, hp] at h
        cases hr : read_labels m.idnaDecode do_raise false rest with
        | error e => simp [hr] at h
        | ok ls =>
          rw [hr] at h
          simp only [Except.ok.injEq] at h
          subst h
          rw [rslLines, hp, rslLabels]
          cases validate with
          | false =>
            simp only [Bool.false_eq_true, if_false]
            exact ih ls (insert l acc) log hr
          | true =>
            simp only [if_true]
            by_cases hre : (m.elig (l.map Char.toNat)).1 = true
            · rw [if_pos hre, if_pos hre]
              exact ih ls (insert l acc) log hr
            · rw [if_neg hre, if_neg hre]
              cases do_raise with
              | true => rfl
              | false => exact ih ls acc _ hr

/-- Invariant of the validating loop: starting from an all-eligible
accumulator, a successful run returns a set of eligible labels, and in
raising mode one on which the collision checker reported no collision. -/
theorem rslLines_ok_invariant (m : MergedLGR) (dr : Bool) :
    ∀ (lines : List (List Char)) (acc : Finset (List Char)) (log log' : List LogEntry)
      (S : Finset (List Char)),
      (∀ x ∈ acc, (m.elig (x.map Char.toNat)).1 = true) →
      rslLines m true dr lines acc log = (log', .ok S) →
      (∀ x ∈ S, (m.elig (x.map Char.toNat)).1 = true) ∧
      (dr = true → m.collide S = false) := by
  intro lines
  induction lines with
  | nil =>
    intro acc log log' S hacc h
    simp only [rslLines, Bool.true_and] at h
    by_cases hc : m.collide acc = true
    · rw [if_pos hc] at h
      cases dr with
      | true =>
        have h2 := congrArg Prod.snd h
        simp at h2
      | false =>
        simp only [Bool.false_eq_true, if_false] at h
        have h2 := congrArg Prod.snd h
        simp only [Except.ok.injEq] at h2
        subst h2
        exact ⟨hacc, fun hdr => by cases hdr⟩
    · have hc' : m.collide acc = false := by revert hc; cases m.collide acc <;> simp
      rw [if_neg hc] at h
      have h2 := congrArg Prod.snd h
      simp only [Except.ok.injEq] at h2
      subst h2
      exact ⟨hacc, fun _ => hc'⟩
  | cons line rest ih =>
    intro acc log log' S hacc h
    cases hp : processLine m.idnaDecode dr false line with
    | error e =>
      rw [rslLines, hp] at h
      have h2 := congrArg Prod.snd h
      simp at h2
    | ok o =>
      cases o with
      | none =>
        rw [rslLines, hp] at h
        exact ih acc log log' S hacc h
      | some l =>
        rw [rslLines, hp] at h
        simp only [if_true] at h
        by_cases hre : (m.elig (l.map Char.toNat)).1 = true
        · rw [if_pos hre] at h
          refine ih (insert l acc) log log' S ?_ h
          intro x hx
          rcases Finset.mem_insert.mp hx with hx | hx
          · subst hx; exact hre
          · exact hacc x hx
        · rw [if_neg hre] at h
          cases dr with
          | true =>
            have h2 := congrArg Prod.snd h
            simp at h2
          | false => exact ih acc _ log' S hacc h

/-- C2 (amended): when validation is requested and `read_set_labels`
returns a label set, every label in it is individually eligible under
the merged ruleset, and in raising mode the collision checker reported
no collision on the returned set.  (In non-raising mode a detected
collision is only logged and the set is returned anyway, refuting the
frozen claim: see `claim_C2_counterexample`.) -/
theorem claim_C2 :
    ∀ (m : MergedLGR) (lines : List (List Char)) (dr : Bool)
      (log : List LogEntry) (S : Finset (List Char)),
      read_set_labels m lines true dr = (log, .ok S) →
      (∀ x ∈ S, (m.elig (x.map Char.toNat)).1 = true) ∧
      (dr = true → m.collide S = false) :=
  fun m lines dr log S h =>
    rslLines_ok_invariant m dr lines ∅ [] log S (by simp) h

/-- C2 counterexample: with an always-eligible checker and a collision
checker that reports a collision exactly when both `"a"` and `"b"` are
present, non-raising validation still returns the set containing both,
i.e. the returned set contains a pair the collision checker considers
colliding. -/
theorem claim_C2_counterexample :
    (read_set_labels
        ⟨fun _ => (true, []), fun s => decide (['a'] ∈ s ∧ ['b'] ∈ s),
         fun _ => .error (.decodeError [])⟩
        [['a'], ['b']] true false).2 =
      .ok (insert ['b'] (insert ['a'] (∅ : Finset (List Char)))) ∧
    (MergedLGR.mk (fun _ => (true, [])) (fun s => decide (['a'] ∈ s ∧ ['b'] ∈ s))
        (fun _ => .error (.decodeError []))).collide
      (insert ['b'] (insert ['a'] (∅ : Finset (List Char)))) = true := by decide

theorem claim_C2_witness :
    (∀ x ∈ ({['a']} : Finset (List Char)),
      ((MergedLGR.mk (fun _ => (true, [])) (fun _ => false)
          (fun _ => .error (.decodeError []))).elig (x.map Char.toNat)).1 = true) ∧
    (true = true →
      (MergedLGR.mk (fun _ => (true, [])) (fun _ => false)
          (fun _ => .error (.decodeError []))).collide {['a']} = false) :=
  claim_C2 ⟨fun _ => (true, []), fun _ => false, fun _ => .error (.decodeError [])⟩
    [['a']] true [] {['a']} (by decide)

/-- In raising mode, the first ineligible label of the parsed sequence
aborts the validating loop with `LGRInvalidLabelException`, carrying the
label and the last line of the eligibility check's diagnostic log, with
that same diagnostic logged just before. -/
theorem rslLabels_first_ineligible (m : MergedLGR) :
    ∀ (pre : List (List Char)) (l : List Char) (post : List (List Char))
      (acc : Finset (List Char)) (log : List LogEntry),
      (∀ p ∈ pre, (m.elig (p.map Char.toNat)).1 = true) →
      (m.elig (l.map Char.toNat)).1 = false →
      rslLabels m true true (pre ++ l :: post) acc log =
        (log ++ [.invalidLabel l (lastLine (m.elig (l.map Char.toNat)).2)],
         .error (.invalidLabel l (lastLine (m.elig (l.map Char.toNat)).2))) := by
  intro pre
  induction pre with
  | nil =>
    intro l post acc log _ hl
    rw [List.nil_append, rslLabels]
    simp only [if_true]
    rw [if_neg (by simp [hl])]
  | cons p ps ih =>
    intro l post acc log hpre hl
    have hp : (m.elig (p.map Char.toNat)).1 = true := hpre p (by simp)
    rw [List.cons_append, rslLabels]
    simp only [if_true]
    rw [if_pos hp]
    exact ih l post (insert p acc) log (fun q hq => hpre q (by simp [hq])) hl

/-- In non-raising mode the validating loop always succeeds; every
ineligible label of the input is logged with the last line of its
diagnostic, and every member of the returned set is either inherited
from the accumulator or an eligible input label. -/
theorem rslLabels_nonraising (m : MergedLGR) :
    ∀ (lbls : List (List Char)) (acc : Finset (List Char)) (log : List LogEntry),
      ∃ (log₂ : List LogEntry) (S : Finset (List Char)),
        rslLabels m true false lbls acc log = (log ++ log₂, .ok S) ∧
        (∀ l ∈ lbls, (m.elig (l.map Char.toNat)).1 = false →
          LogEntry.invalidLabel l (lastLine (m.elig (l.map Char.toNat)).2) ∈ log₂) ∧
        (∀ x ∈ S, x ∈ acc ∨ (x ∈ lbls ∧ (m.elig (x.map Char.toNat)).1 = true)) := by
  intro lbls
  induction lbls with
  | nil =>
    intro acc log
    by_cases hc : m.collide acc = true
    · refine ⟨[.collisionFound], acc, ?_, by simp, fun x hx => Or.inl hx⟩
      rw [rslLabels]
      simp [hc]
    · refine ⟨[], acc, ?_, by simp, fun x hx => Or.inl hx⟩
      rw [rslLabels]
      simp [hc]
  | cons l rest ih =>
    intro acc log
    by_cases he : (m.elig (l.map Char.toNat)).1 = true
    · obtain ⟨log₂, S, h1, h2, h3⟩ := ih (insert l acc) log
      refine ⟨log₂, S, ?_, ?_, ?_⟩
      · rw [rslLabels]
        simp only [if_true]
        rw [if_pos he]
        exact h1
      · intro x hx hxe
        rcases List.mem_cons.mp hx with hx | hx
        · subst hx; rw [he] at hxe; cases hxe
        · exact h2 x hx hxe
      · intro x hx
        rcases h3 x hx with hx' | hx'
        · rcases Finset.mem_insert.mp hx' with hx'' | hx''
          · exact Or.inr ⟨by simp [hx''], by rw [hx'']; exact he⟩
          · exact Or.inl hx''
        · exact Or.inr ⟨by simp [hx'.1], hx'.2⟩
    · obtain ⟨log₂, S, h1, h2, h3⟩ := ih acc
        (log ++ [.invalidLabel l (lastLine (m.elig (l.map Char.toNat)).2)])
      refine ⟨.invalidLabel l (lastLine (m.elig (l.map Char.toNat)).2) :: log₂, S, ?_, ?_, ?_⟩
      · rw [rslLabels]
        simp only [if_true]
        rw [if_neg he]
        simp only [Bool.false_eq_true, if_false]
        rw [h1, List.append_assoc]
        rfl
      · intro x hx hxe
        rcases List.mem_cons.mp hx with hx | hx
        · subst hx; exact List.mem_cons_self _ _
        · exact List.mem_cons_of_mem _ (h2 x hx hxe)
      · intro x hx
        rcases h3 x hx with hx' | hx'
        · exact Or.inl hx'
        · exact Or.inr ⟨List.mem_cons_of_mem _ hx'.1, hx'.2⟩

/-- C3: when validation is requested, a label failing the eligibility
check is excluded from the result set and the last line of the check's
diagnostic is logged for it; in raising mode the first ineligible label
of the parsed stream aborts the operation with an
`LGRInvalidLabelException` carrying the label and that diagnostic
line. -/
theorem claim_C3 :
    (∀ (m : MergedLGR) (lines lbls pre : List (List Char)) (l : List Char)
        (post : List (List Char)),
      read_labels m.idnaDecode true false lines = .ok lbls →
      lbls = pre ++ l :: post →
      (∀ p ∈ pre, (m.elig (p.map Char.toNat)).1 = true) →
      (m.elig (l.map Char.toNat)).1 = false →
      read_set_labels m lines true true =
        ([.invalidLabel l (lastLine (m.elig (l.map Char.toNat)).2)],
         .error (.invalidLabel l (lastLine (m.elig (l.map Char.toNat)).2)))) ∧
    (∀ (m : MergedLGR) (lines lbls : List (List Char)) (l : List Char),
      read_labels m.idnaDecode false false lines = .ok lbls →
      l ∈ lbls →
      (m.elig (l.map Char.toNat)).1 = false →
      ∃ (log : List LogEntry) (S : Finset (List Char)),
        read_set_labels m lines true false = (log, .ok S) ∧
        l ∉ S ∧
        LogEntry.invalidLabel l (lastLine (m.elig (l.map Char.toNat)).2) ∈ log) := by
  constructor
  · intro m lines lbls pre l post hrl hsplit hpre hl
    rw [read_set_labels, rslLines_eq_rslLabels m true true lines lbls ∅ [] hrl, hsplit]
    rw [rslLabels_first_ineligible m pre l post ∅ [] hpre hl]
    rfl
  · intro m lines lbls l hrl hmem hl
    rw [read_set_labels, rslLines_eq_rslLabels m true false lines lbls ∅ [] hrl]
    obtain ⟨log₂, S, h1, h2, h3⟩ := rslLabels_nonraising m lbls ∅ []
    refine ⟨log₂, S, by rw [h1]; rfl, ?_, h2 l hmem hl⟩
    intro hS
    rcases h3 l hS with h | h
    · simp at h
    · rw [h.2] at hl; cases hl

theorem claim_C3_witness :
    read_set_labels
        ⟨fun cps => if cps = [98] then (false, ("line1\nline2").toList) else (true, []),
         fun _ => false, fun _ => .error (.decodeError [])⟩
        [['a'], ['b']] true true =
      ([.invalidLabel ['b'] (lastLine
          ((fun cps => if cps = [98] then (false, ("line1\nline2").toList) else (true, []))
            [98]).2)],
       .error (.invalidLabel ['b'] (lastLine
          ((fun cps => if cps = [98] then (false, ("line1\nline2").toList) else (true, []))
            [98]).2))) :=
  claim_C3.1
    ⟨fun cps => if cps = [98] then (false, ("line1\nline2").toList) else (true, []),
     fun _ => false, fun _ => .error (.decodeError [])⟩
    [['a'], ['b']] [['a'], ['b']] [['a']] ['b'] []
    (by decide) rfl (by decide) (by decide)

/-- C4: with validation requested, `read_set_labels` is exactly the
eligibility-filtering loop (`rslNoColl`, which never consults the
collision checker) followed by one collision check over the final
accumulated set: on a collision it logs it and raises `CollisionError`
in raising mode, or returns the set anyway (collision only logged) in
non-raising mode.  In particular the collision checker is consulted
exactly once, on the whole set after all filtering. -/
theorem claim_C4 :
    ∀ (m : MergedLGR) (lines : List (List Char)) (dr : Bool),
      read_set_labels m lines true dr =
        match rslNoColl m dr lines ∅ [] with
        | (log, .error e) => (log, .error e)
        | (log, .ok S) =>
          if m.collide S then
            (log ++ [.collisionFound], if dr then .error .collision else .ok S)
          else (log, .ok S) := by
  have main : ∀ (m : MergedLGR) (dr : Bool) (lines : List (List Char))
      (acc : Finset (List Char)) (log : List LogEntry),
      rslLines m true dr lines acc log =
        match rslNoColl m dr lines acc log with
        | (log', .error e) => (log', .error e)
        | (log', .ok S) =>
          if m.collide S then
            (log' ++ [.collisionFound], if dr then .error .collision else .ok S)
          else (log', .ok S) := by
    intro m dr lines
    induction lines with
    | nil =>
      intro acc log
      rw [rslLines, rslNoColl]
      simp only [Bool.true_and]
      by_cases hc : m.collide acc = true
      · rw [if_pos hc, if_pos hc]
        cases dr <;> rfl
      · rw [if_neg hc, if_neg hc]
    | cons line rest ih =>
      intro acc log
      rw [rslLines, rslNoColl]
      cases hp : processLine m.idnaDecode dr false line with
      | error e => rfl
      | ok o =>
        cases o with
        | none => exact ih acc log
        | some l =>
          simp only [if_true]
          by_cases hre : (m.elig (l.map Char.toNat)).1 = true
          · rw [if_pos hre, if_pos hre]
            exact ih (insert l acc) log
          · rw [if_neg hre, if_neg hre]
            cases dr with
            | true => rfl
            | false => exact ih acc _
  intro m lines dr
  rw [read_set_labels]
  exact main m dr lines ∅ []

theorem claim_C4_witness :
    read_set_labels
        ⟨fun _ => (true, []), fun _ => false, fun _ => .error (.decodeError [])⟩
        [['a']] true true =
      match rslNoColl
          ⟨fun _ => (true, []), fun _ => false, fun _ => .error (.decodeError [])⟩
          true [['a']] ∅ [] with
      | (log, .error e) => (log, .error e)
      | (log, .ok S) =>
        if (MergedLGR.mk (fun _ => (true, [])) (fun _ => false)
            (fun _ => .error (.decodeError []))).collide S then
          (log ++ [.collisionFound], if true then .error .collision else .ok S)
        else (log, .ok S) :=
  claim_C4 ⟨fun _ => (true, []), fun _ => false, fun _ => .error (.decodeError [])⟩
    [['a']] true

/-- A failing `parse_document` anywhere in the source list makes the
merge loop return no ruleset list. -/
theorem mergeLoop_none {α L : Type} (env : MergeEnv α L) (rng : Bool) :
    ∀ (files : List α) (acc : List L) (log : List (MergeLog α)),
      (∃ f ∈ files, env.parseDoc f = none) →
      (mergeLoop env rng files acc log).2 = none := by
  intro files
  induction files with
  | nil =>
    intro acc log h
    obtain ⟨f, hf, _⟩ := h
    cases hf
  | cons f rest ih =>
    intro acc log h
    rw [mergeLoop]
    cases hp : env.parseDoc f with
    | none => rfl
    | some lgr =>
      obtain ⟨g, hg, hgn⟩ := h
      rcases List.mem_cons.mp hg with hg' | hg'
      · subst hg'; rw [hp] at hgn; cases hgn
      · exact ih _ _ ⟨g, hg', hgn⟩

/-- C5: if any source in the input list fails to parse into a ruleset,
`merge_lgrs` returns no merged result, regardless of the other
sources. -/
theorem claim_C5 :
    ∀ {α L : Type} (env : MergeEnv α L) (input_lgrs : List α)
      (name : Option (List Char)) (rng : Bool),
      (∃ f ∈ input_lgrs, env.parseDoc f = none) →
      (merge_lgrs env input_lgrs name rng).2 = none := by
  intro α L env input_lgrs name rng h
  have := mergeLoop_none env rng input_lgrs [] [] h
  unfold merge_lgrs
  cases hm : mergeLoop env rng input_lgrs [] [] with
  | mk log res =>
    rw [hm] at this
    cases res with
    | none => rfl
    | some s => cases this

theorem claim_C5_witness :
    (merge_lgrs
        (MergeEnv.mk (L := Unit) (fun n => if n = 0 then none else some ())
          (fun _ => none) (fun _ _ => ()))
        [1, 0] none false).2 = none :=
  claim_C5
    (MergeEnv.mk (L := Unit) (fun n => if n = 0 then none else some ())
      (fun _ => none) (fun _ _ => ()))
    [1, 0] none false ⟨0, by decide, by decide⟩

theorem toHexFuel_append : ∀ (fuel n : Nat) (acc : List Char),
    toHexFuel fuel n acc = toHexFuel fuel n [] ++ acc := by
  intro fuel
  induction fuel with
  | zero => intro n acc; rfl
  | succ fuel ih =>
    intro n acc
    rw [toHexFuel, toHexFuel]
    by_cases h : n < 16
    · rw [if_pos h, if_pos h]; rfl
    · rw [if_neg h, if_neg h, ih (n / 16) (hexDigitChar (n % 16) :: acc),
        ih (n / 16) [hexDigitChar (n % 16)], List.append_assoc]
      rfl

theorem toHexFuel_ne_nil : ∀ (fuel n : Nat) (acc : List Char),
    0 < fuel → toHexFuel fuel n acc ≠ [] := by
  intro fuel
  induction fuel with
  | zero => intro n acc h; exact absurd h (by omega)
  | succ fuel ih =>
    intro n acc _
    rw [toHexFuel]
    by_cases h : n < 16
    · rw [if_pos h]; simp
    · rw [if_neg h]
      cases fuel with
      | zero => simp [toHexFuel]
      | succ f => exact ih _ _ (Nat.succ_pos f)

theorem mem_toHexFuel : ∀ (fuel n : Nat) (acc : List Char) (c : Char),
    c ∈ toHexFuel fuel n acc → c ∈ acc ∨ ∃ d, d < 16 ∧ c = hexDigitChar d := by
  intro fuel
  induction fuel with
  | zero => intro n acc c h; exact Or.inl h
  | succ fuel ih =>
    intro n acc c h
    rw [toHexFuel] at h
    by_cases h16 : n < 16
    · rw [if_pos h16] at h
      rcases List.mem_cons.mp h with h | h
      · exact Or.inr ⟨n, h16, h⟩
      · exact Or.inl h
    · rw [if_neg h16] at h
      rcases ih _ _ _ h with h' | h'
      · rcases List.mem_cons.mp h' with h'' | h''
        · exact Or.inr ⟨n % 16, Nat.mod_lt _ (by omega), h''⟩
        · exact Or.inl h''
      · exact Or.inr h'

theorem hexVal_hexDigitChar : ∀ d : Nat, d < 16 → hexVal (hexDigitChar d) = some d := by
  intro d hd
  interval_cases d <;> rfl

theorem hexVal_upper_hexDigitChar : ∀ d : Nat, d < 16 →
    hexVal (Char.toUpper (hexDigitChar d)) = some d := by
  intro d hd
  interval_cases d <;> rfl

theorem hexDigitChar_not_space : ∀ d : Nat, d < 16 →
    isPySpace (hexDigitChar d) = false := by
  intro d hd
  interval_cases d <;> rfl

theorem hexDigitChar_upper_not_space : ∀ d : Nat, d < 16 →
    isPySpace (Char.toUpper (hexDigitChar d)) = false := by
  intro d hd
  interval_cases d <;> rfl

/-- Round trip of the hex printer through the hex-digit parser, up to a
character mapping `f` that preserves digit values (identity or
upper-casing). -/
theorem parseHexAux_toHexFuel (f : Char → Char)
    (hf : ∀ d, d < 16 → hexVal (f (hexDigitChar d)) = some d) :
    ∀ (fuel n : Nat), n < fuel → ∀ (acc : List Char) (a : Nat),
      parseHexAux ((toHexFuel fuel n acc).map f) a =
        parseHexAux (acc.map f) (a * 16 ^ (toHexFuel fuel n []).length + n) := by
  intro fuel
  induction fuel with
  | zero => intro n h; exact absurd h (by omega)
  | succ fuel ih =>
    intro n hn acc a
    by_cases h16 : n < 16
    · rw [show toHexFuel (fuel + 1) n acc = hexDigitChar n :: acc from by
        rw [toHexFuel, if_pos h16]]
      rw [show toHexFuel (fuel + 1) n [] = [hexDigitChar n] from by
        rw [toHexFuel, if_pos h16]]
      simp only [List.map_cons, parseHexAux, hf n h16, List.length_cons, List.length_nil]
      norm_num
    · have hdiv : n / 16 < fuel := by
        have h1 : n / 16 < n := Nat.div_lt_self (by omega) (by omega)
        omega
      rw [show toHexFuel (fuel + 1) n acc
          = toHexFuel fuel (n / 16) (hexDigitChar (n % 16) :: acc) from by
        rw [toHexFuel, if_neg h16]]
      rw [show toHexFuel (fuel + 1) n []
          = toHexFuel fuel (n / 16) [hexDigitChar (n % 16)] from by
        rw [toHexFuel, if_neg h16]]
      rw [ih (n / 16) hdiv (hexDigitChar (n % 16) :: acc) a]
      rw [toHexFuel_append fuel (n / 16) [hexDigitChar (n % 16)]]
      simp only [List.map_cons, parseHexAux, hf (n % 16) (Nat.mod_lt n (by omega)),
        List.length_append, List.length_cons, List.length_nil]
      congr 1
      have hmod := Nat.div_add_mod n 16
      rw [pow_succ]
      have key : ∀ k : Nat, (a * k + n / 16) * 16 + n % 16
          = a * (k * 16) + (16 * (n / 16) + n % 16) := by intro k; ring
      rw [key, hmod]

theorem dropWhile_of_not (l : List Char) (h : ∀ c ∈ l, isPySpace c = false) :
    l.dropWhile isPySpace = l := by
  cases l with
  | nil => rfl
  | cons c cs => simp [List.dropWhile, h c (by simp)]

theorem pyStrip_of_not (l : List Char) (h : ∀ c ∈ l, isPySpace c = false) :
    pyStrip l = l := by
  unfold pyStrip
  rw [dropWhile_of_not l h,
    dropWhile_of_not l.reverse (fun c hc => h c (List.mem_reverse.mp hc)),
    List.reverse_reverse]

theorem pyInt16_pyHex (n : Nat) : pyInt16 (pyHex n) = .ok (n : Int) := by
  have hchars : ∀ c ∈ pyHex n, isPySpace c = false := by
    intro c hc
    rcases List.mem_cons.mp hc with rfl | hc
    · rfl
    rcases List.mem_cons.mp hc with rfl | hc
    · rfl
    rcases mem_toHexFuel _ _ _ _ hc with hc | ⟨d, hd, rfl⟩
    · exact absurd hc (List.not_mem_nil c)
    · exact hexDigitChar_not_space d hd
  unfold pyInt16
  rw [pyStrip_of_not _ hchars]
  show (match parseHexDigits (toHexFuel (n + 1) n []) with
    | some v => Except.ok ((1 : Int) * (v : Int))
    | none => Except.error (ParseErr.malformed (pyHex n))) = .ok (n : Int)
  cases hds : toHexFuel (n + 1) n [] with
  | nil => exact absurd hds (toHexFuel_ne_nil _ _ _ (Nat.succ_pos n))
  | cons c cs =>
    have hval : parseHexAux (c :: cs) 0 = some n := by
      have h := parseHexAux_toHexFuel id
        (fun d hd => by simpa using hexVal_hexDigitChar d hd)
        (n + 1) n (Nat.lt_succ_self n) [] 0
      rw [List.map_id, List.map_id, hds] at h
      simpa using h
    rw [parseHexDigits, hval]
    simp

theorem pyInt16_pyHex_upper (n : Nat) : pyInt16 (pyUpper (pyHex n)) = .ok (n : Int) := by
  have hchars : ∀ c ∈ pyUpper (pyHex n), isPySpace c = false := by
    intro c hc
    rw [pyUpper] at hc
    rcases List.mem_map.mp hc with ⟨b, hb, rfl⟩
    rcases List.mem_cons.mp hb with rfl | hb
    · rfl
    rcases List.mem_cons.mp hb with rfl | hb
    · rfl
    rcases mem_toHexFuel _ _ _ _ hb with hb | ⟨d, hd, rfl⟩
    · exact absurd hb (List.not_mem_nil b)
    · exact hexDigitChar_upper_not_space d hd
  unfold pyInt16
  rw [pyStrip_of_not _ hchars]
  show (match parseHexDigits ((toHexFuel (n + 1) n []).map Char.toUpper) with
    | some v => Except.ok ((1 : Int) * (v : Int))
    | none => Except.error (ParseErr.malformed (pyUpper (pyHex n)))) = .ok (n : Int)
  cases hds : toHexFuel (n + 1) n [] with
  | nil => exact absurd hds (toHexFuel_ne_nil _ _ _ (Nat.succ_pos n))
  | cons c cs =>
    have hval : parseHexAux (Char.toUpper c :: cs.map Char.toUpper) 0 = some n := by
      have h := parseHexAux_toHexFuel Char.toUpper hexVal_upper_hexDigitChar
        (n + 1) n (Nat.lt_succ_self n) [] 0
      rw [hds] at h
      simpa using h
    rw [List.map_cons, parseHexDigits, hval]
    simp

theorem hexVal_lower_hexDigitChar : ∀ d : Nat, d < 16 →
    hexVal (Char.toLower (hexDigitChar d)) = some d := by
  intro d hd
  interval_cases d <;> rfl

theorem hexDigitChar_lower_not_space : ∀ d : Nat, d < 16 →
    isPySpace (Char.toLower (hexDigitChar d)) = false := by
  intro d hd
  interval_cases d <;> rfl

theorem caseOf_u : ∀ u : Char, caseOf 'U' u → u = 'U' ∨ u = 'u' := by
  intro u h
  rcases h with rfl | rfl | rfl <;> decide

theorem caseOf_plus : ∀ p : Char, caseOf '+' p → p = '+' := by
  intro p h
  rcases h with rfl | rfl | rfl <;> decide

theorem caseOf_zero : ∀ z : Char, caseOf '0' z → z = '0' := by
  intro z h
  rcases h with rfl | rfl | rfl <;> decide

theorem caseOf_x : ∀ x : Char, caseOf 'x' x → x = 'x' ∨ x = 'X' := by
  intro x h
  rcases h with rfl | rfl | rfl <;> decide

/-- Any case variant of a hex digit character still carries the same
digit value and is not whitespace. -/
theorem caseOf_hexDigit : ∀ (d : Nat), d < 16 → ∀ c : Char,
    caseOf (hexDigitChar d) c → hexVal c = some d ∧ isPySpace c = false := by
  intro d hd c h
  rcases h with rfl | rfl | rfl
  · exact ⟨hexVal_hexDigitChar d hd, hexDigitChar_not_space d hd⟩
  · exact ⟨hexVal_upper_hexDigitChar d hd, hexDigitChar_upper_not_space d hd⟩
  · exact ⟨hexVal_lower_hexDigitChar d hd, hexDigitChar_lower_not_space d hd⟩

/-- Characters of a `caseOf` variant inherit non-whitespaceness from the
source string (whose characters are non-whitespace under any case). -/
theorem forall₂_caseOf_nonspace :
    ∀ (src t : List Char), List.Forall₂ caseOf src t →
      (∀ a ∈ src, ∀ b, caseOf a b → isPySpace b = false) →
      ∀ b ∈ t, isPySpace b = false := by
  intro src t h
  induction h with
  | nil => intro _ b hb; cases hb
  | cons hR hF ih =>
    intro hsrc b hb
    rcases List.mem_cons.mp hb with rfl | hb
    · exact hsrc _ (by simp) _ hR
    · exact ih (fun a ha b' hb' => hsrc a (by simp [ha]) b' hb') b hb

/-- Round trip of the hex printer through the hex-digit parser, for an
arbitrary per-character re-casing of the printed digits. -/
theorem parseHexAux_toHexFuel_case :
    ∀ (fuel n : Nat), n < fuel → ∀ (acc t : List Char) (a : Nat),
      List.Forall₂ caseOf (toHexFuel fuel n acc) t →
      ∃ t₂, List.Forall₂ caseOf acc t₂ ∧
        parseHexAux t a = parseHexAux t₂ (a * 16 ^ (toHexFuel fuel n []).length + n) := by
  intro fuel
  induction fuel with
  | zero => intro n h; exact absurd h (by omega)
  | succ fuel ih =>
    intro n hn acc t a ht
    by_cases h16 : n < 16
    · rw [show toHexFuel (fuel + 1) n acc = hexDigitChar n :: acc from by
        rw [toHexFuel, if_pos h16]] at ht
      rw [show toHexFuel (fuel + 1) n [] = [hexDigitChar n] from by
        rw [toHexFuel, if_pos h16]]
      rcases List.forall₂_cons_left_iff.mp ht with ⟨b, t₂, hR, hF, rfl⟩
      refine ⟨t₂, hF, ?_⟩
      have hv := (caseOf_hexDigit n h16 b hR).1
      simp only [parseHexAux, hv, List.length_cons, List.length_nil]
      norm_num
    · have hdiv : n / 16 < fuel := by
        have h1 : n / 16 < n := Nat.div_lt_self (by omega) (by omega)
        omega
      rw [show toHexFuel (fuel + 1) n acc
          = toHexFuel fuel (n / 16) (hexDigitChar (n % 16) :: acc) from by
        rw [toHexFuel, if_neg h16]] at ht
      rw [show toHexFuel (fuel + 1) n []
          = toHexFuel fuel (n / 16) [hexDigitChar (n % 16)] from by
        rw [toHexFuel, if_neg h16]]
      obtain ⟨t₂, hF2, heq⟩ := ih (n / 16) hdiv (hexDigitChar (n % 16) :: acc) t a ht
      rcases List.forall₂_cons_left_iff.mp hF2 with ⟨b, t₃, hR, hF3, rfl⟩
      refine ⟨t₃, hF3, ?_⟩
      rw [heq]
      have hv := (caseOf_hexDigit (n % 16) (Nat.mod_lt n (by omega)) b hR).1
      simp only [parseHexAux, hv]
      rw [toHexFuel_append fuel (n / 16) [hexDigitChar (n % 16)]]
      simp only [List.length_append, List.length_cons, List.length_nil]
      congr 1
      have hmod := Nat.div_add_mod n 16
      rw [pow_succ]
      have key : ∀ k : Nat, (a * k + n / 16) * 16 + n % 16
          = a * (k * 16) + (16 * (n / 16) + n % 16) := by intro k; ring
      rw [key, hmod]

/-- `int(_, 16)` accepts any per-character re-casing of Python's
`hex(n)` (`0x`/`0X` prefix, digits in either case) and returns `n`. -/
theorem pyInt16_pyHex_case (n : Nat) (t : List Char)
    (ht : List.Forall₂ caseOf (pyHex n) t) : pyInt16 t = .ok (n : Int) := by
  rcases List.forall₂_cons_left_iff.mp ht with ⟨z, t', hz, ht', rfl⟩
  rcases List.forall₂_cons_left_iff.mp ht' with ⟨x, ds, hx, hds, rfl⟩
  obtain rfl := caseOf_zero z hz
  have hchars : ∀ b ∈ ('0' :: x :: ds), isPySpace b = false := by
    intro b hb
    rcases List.mem_cons.mp hb with rfl | hb
    · decide
    rcases List.mem_cons.mp hb with rfl | hb
    · rcases caseOf_x _ hx with rfl | rfl <;> decide
    · refine forall₂_caseOf_nonspace _ _ hds ?_ b hb
      intro a ha b' hb'
      rcases mem_toHexFuel _ _ _ _ ha with ha | ⟨d, hd, rfl⟩
      · exact absurd ha (List.not_mem_nil a)
      · exact (caseOf_hexDigit d hd b' hb').2
  have hval : parseHexDigits ds = some n := by
    obtain ⟨t₂, h2, heq⟩ :=
      parseHexAux_toHexFuel_case (n + 1) n (Nat.lt_succ_self n) [] ds 0 hds
    rw [List.forall₂_nil_left_iff.mp h2] at heq
    have hne : ds ≠ [] := by
      intro hnil
      rw [hnil] at hds
      exact absurd (List.forall₂_nil_right_iff.mp hds)
        (toHexFuel_ne_nil _ _ _ (Nat.succ_pos n))
    cases ds with
    | nil => exact absurd rfl hne
    | cons c cs =>
      rw [parseHexDigits, heq]
      simp [parseHexAux]
  rcases caseOf_x x hx with rfl | rfl
  · unfold pyInt16
    rw [pyStrip_of_not _ hchars]
    show (match parseHexDigits ds with
      | some v => Except.ok ((1 : Int) * (v : Int))
      | none => Except.error (ParseErr.malformed ('0' :: 'x' :: ds))) = Except.ok (n : Int)
    rw [hval]
    simp
  · unfold pyInt16
    rw [pyStrip_of_not _ hchars]
    show (match parseHexDigits ds with
      | some v => Except.ok ((1 : Int) * (v : Int))
      | none => Except.error (ParseErr.malformed ('0' :: 'X' :: ds))) = Except.ok (n : Int)
    rw [hval]
    simp

/-- The non-single-character branch of `parse_single_cp_input`, for an
already-stripped input of length at least two. -/
theorem parse_single_cp_cons2 (a b : Char) (r : List Char)
    (h : pyStrip (a :: b :: r) = a :: b :: r) :
    parse_single_cp_input (a :: b :: r) =
      match (if pyUpper ((a :: b :: r).take 2) = ['U', '+']
             then pyInt16 ((a :: b :: r).drop 2) else pyInt16 (a :: b :: r)) with
      | .error e => .error e
      | .ok v =>
        if v < 0 ∨ v > (0x10FFFF : Int) then .error .outOfRange else .ok v.toNat := by
  unfold parse_single_cp_input
  rw [h]

/-- C6 (amended): every single character that is not Python whitespace
parses to its own ordinal (a whitespace character is stripped first,
refuting the unrestricted claim: see `claim_C6_counterexample`); for
every `n ≤ 0x10FFFF`, any per-character re-casing of `"U+" + hex(n)`
(the `caseOf` relation: `U+`/`u+` prefix, `0x`/`0X`, digits each
independently in either case) parses to `n`; and `"U+" + hex(0x110000)`
fails with the out-of-range error. -/
theorem claim_C6 :
    (∀ c : Char, isPySpace c = false → parse_single_cp_input [c] = .ok c.toNat) ∧
    (∀ n : Nat, n ≤ 0x10FFFF → ∀ t : List Char,
      List.Forall₂ caseOf ('U' :: '+' :: pyHex n) t →
      parse_single_cp_input t = .ok n) ∧
    parse_single_cp_input ('U' :: '+' :: pyHex 0x110000) = .error .outOfRange := by
  refine ⟨?_, ?_, by decide⟩
  · intro c hc
    unfold parse_single_cp_input
    rw [pyStrip_of_not [c] (by intro x hx; simp at hx; subst hx; exact hc)]
  · intro n hn t ht
    rcases List.forall₂_cons_left_iff.mp ht with ⟨u, t', hu, ht', rfl⟩
    rcases List.forall₂_cons_left_iff.mp ht' with ⟨p, rest, hp, hrest, rfl⟩
    obtain rfl := caseOf_plus p hp
    have hns : ∀ b ∈ (u :: '+' :: rest), isPySpace b = false := by
      intro b hb
      rcases List.mem_cons.mp hb with rfl | hb
      · rcases caseOf_u _ hu with rfl | rfl <;> decide
      rcases List.mem_cons.mp hb with rfl | hb
      · decide
      · refine forall₂_caseOf_nonspace _ _ hrest ?_ b hb
        intro a ha b' hb'
        rcases List.mem_cons.mp ha with rfl | ha
        · rcases hb' with rfl | rfl | rfl <;> decide
        rcases List.mem_cons.mp ha with rfl | ha
        · rcases hb' with rfl | rfl | rfl <;> decide
        rcases mem_toHexFuel _ _ _ _ ha with ha | ⟨d, hd, rfl⟩
        · exact absurd ha (List.not_mem_nil a)
        · exact (caseOf_hexDigit d hd b' hb').2
    rw [parse_single_cp_cons2 u '+' rest (pyStrip_of_not _ hns)]
    have htake : pyUpper ((u :: '+' :: rest).take 2) = ['U', '+'] := by
      rcases caseOf_u u hu with rfl | rfl <;> rfl
    rw [if_pos htake]
    show (match pyInt16 rest with
      | Except.error e => Except.error e
      | Except.ok v =>
        if v < 0 ∨ v > (0x10FFFF : Int) then Except.error ParseErr.outOfRange
        else Except.ok v.toNat) = .ok n
    rw [pyInt16_pyHex_case n rest hrest]
    show (if (n : Int) < 0 ∨ (n : Int) > (0x10FFFF : Int)
          then Except.error ParseErr.outOfRange
          else Except.ok (Int.toNat (n : Int))) = .ok n
    rw [if_neg (by omega)]
    simp

/-- C6 counterexample: a single whitespace character does not parse to
its ordinal — it is stripped and the empty remainder fails hex
parsing. -/
theorem claim_C6_counterexample :
    parse_single_cp_input [' '] ≠ .ok (Char.toNat ' ') := by decide

example : isPySpace (Char.ofNat 0xA0) = true := by decide
example : isPySpace (Char.ofNat 0x1C) = true := by decide
example : parse_single_cp_input [Char.ofNat 0xA0] = .error (.malformed []) := by decide
example : parse_single_cp_input [Char.ofNat 0x1C] = .error (.malformed []) := by decide
example : parse_single_cp_input (("u+0x61").toList) = .ok 97 := by decide
example : parse_single_cp_input (("U+0X61").toList) = .ok 97 := by decide

theorem claim_C6_witness :
    parse_single_cp_input ['z'] = .ok (Char.toNat 'z') ∧
    parse_single_cp_input (("u+0X61").toList) = .ok 97 :=
  ⟨claim_C6.1 'z' (by decide),
   claim_C6.2.1 97 (by decide) (("u+0X61").toList)
     (by
       show List.Forall₂ caseOf ('U' :: '+' :: pyHex 97)
         ('u' :: '+' :: '0' :: 'X' :: '6' :: '1' :: [])
       have hh : pyHex 97 = ['0', 'x', '6', '1'] := by decide
       rw [hh]
       exact .cons (by decide) (.cons (by decide) (.cons (by decide)
         (.cons (by decide) (.cons (by decide) (.cons (by decide) .nil))))))⟩

/-- C9: in non-raising mode a label line that fails to parse yields the
diagnostic placeholder `"<label>: <error message>"` in place of a label,
and `read_set_labels` then treats this placeholder as an ordinary
candidate label: with validation skipped it is added verbatim to the
returned set, and with validation requested it is eligibility-checked
like any other label (kept exactly when eligible, and excluded and
logged when not). -/
theorem claim_C9 :
    ∀ (m : MergedLGR) (line : List Char) (e : ParseErr),
      '#' ∉ line →
      pyStrip line = line →
      line ≠ [] →
      parse_label_input_str line m.idnaDecode = .error e →
      (read_labels m.idnaDecode false false [line] =
        .ok [line ++ (": ").toList ++ errMsg e]) ∧
      (read_set_labels m [line] false false =
        ([], .ok {line ++ (": ").toList ++ errMsg e})) ∧
      ((m.elig ((line ++ (": ").toList ++ errMsg e).map Char.toNat)).1 = true →
        (read_set_labels m [line] true false).2 =
          .ok {line ++ (": ").toList ++ errMsg e}) ∧
      ((m.elig ((line ++ (": ").toList ++ errMsg e).map Char.toNat)).1 = false →
        (read_set_labels m [line] true false).2 = .ok (∅ : Finset (List Char)) ∧
        LogEntry.invalidLabel (line ++ (": ").toList ++ errMsg e)
            (lastLine (m.elig ((line ++ (": ").toList ++ errMsg e).map Char.toNat)).2) ∈
          (read_set_labels m [line] true false).1) := by
  intro m line e hhash hstrip hne hperr
  have hproc : processLine m.idnaDecode false false line
      = .ok (some (line ++ (": ").toList ++ errMsg e)) := by
    simp only [processLine, processBody, hstrip, hperr]
    simp [hhash, hne]
  refine ⟨by simp [read_labels, hproc], ?_, ?_, ?_⟩
  · rw [read_set_labels]
    rw [rslLines, hproc]
    simp only [Bool.false_eq_true, if_false]
    rw [rslLines]
    simp
  · intro he
    rw [read_set_labels, rslLines, hproc]
    simp only [if_true]
    rw [if_pos he, rslLines]
    simp only [Bool.true_and]
    by_cases hcol : m.collide (insert (line ++ (": ").toList ++ errMsg e) ∅) = true
    · rw [if_pos hcol]
      simp
    · rw [if_neg hcol]
      simp
  · intro he
    rw [read_set_labels, rslLines, hproc]
    simp only [if_true]
    rw [if_neg (by rw [he]; simp), rslLines]
    simp only [Bool.true_and, Bool.false_eq_true, if_false]
    by_cases hcol : m.collide (∅ : Finset (List Char)) = true
    · rw [if_pos hcol]
      simp
    · rw [if_neg hcol]
      simp

theorem claim_C9_witness :
    read_set_labels
        ⟨fun _ => (true, []), fun _ => false, fun _ => .error (.decodeError [])⟩
        [("zz a").toList] false false =
      ([], .ok {("zz a").toList ++ (": ").toList
        ++ errMsg (.disallowedWhitespace ("zz a").toList)}) :=
  (claim_C9 ⟨fun _ => (true, []), fun _ => false, fun _ => .error (.decodeError [])⟩
    ("zz a").toList (.disallowedWhitespace ("zz a").toList)
    (by decide) (by decide) (by decide) (by decide)).2.1

end Lgr
